import Mathlib

/-!
Verification of the variable-provenance CLI
(`lib/ansible_variables/cli/variables.py`).

The development shallowly embeds the two pieces of core logic of the file:

* `VariablesCLI.delete_var` (the Block Remover): a line-oriented scan that
  rewrites a file, dropping definition blocks of a given variable; and
* the body of `VariablesCLI.run`: host deduplication by last group,
  filtering of internal variable names, and the duplicate report /
  duplicate removal loop.

Lines are modelled as lists of characters (`readlines` keeps the trailing
newline inside each line, so a file is exactly the concatenation of its
lines).  External collaborators (the inventory's `get_hosts`, the variable
sources returned by `variable_sources`, and `Variable.file_occurrences`)
are not part of this file; their results are passed in as data.
-/

namespace AnsibleVariables

/-- A line of a file, as produced by Python's `readlines` (the trailing
newline, if any, is part of the line). -/
abbrev Line := List Char

/-- Python `line.startswith((' ', '\t'))`: true iff the line begins with a
space or a tab character. -/
def isIndented (line : Line) : Bool :=
  match line with
  | [] => false
  | c :: _ => c = ' ' || c = '\t'

/-- The loop body of `VariablesCLI.delete_var`, with the `var_found` flag
made explicit.  Python source:

  var_found = False
  for line in lines:
      if var_found:
          var_found = line.startswith((' ', '\t'))
      if line.startswith(var) or var_found:
          var_found = True
          continue
      fw.write(line)
-/
def deleteVarGo (var : Line) : Bool → List Line → List Line
  | _, [] => []
  | var_found, line :: rest =>
    let vf := var_found && isIndented line
    if var.isPrefixOf line || vf then
      deleteVarGo var true rest
    else
      line :: deleteVarGo var false rest

/-- The lines `VariablesCLI.delete_var` writes back, given the lines read
from the file and the literal `var` string (the caller passes
`variable.name + ":"`). -/
def deleteVarLines (var : Line) (lines : List Line) : List Line :=
  deleteVarGo var false lines

/-- Modelled from the spec: the two states of the Remover's scan
(section 4.4 state machine). -/
inductive ScanState
  | OUTSIDE
  | INSIDE_BLOCK
deriving DecidableEq

/-- Rank used for the termination measure of `specScan`. -/
def stateRank : ScanState → Nat
  | .OUTSIDE => 0
  | .INSIDE_BLOCK => 1

/-- Modelled from the spec: the two-state scan of section 4.4.  In OUTSIDE
a matching key line is dropped and the state becomes INSIDE_BLOCK; in
INSIDE_BLOCK an indented line is dropped; a non-indented line returns the
state to OUTSIDE and is re-evaluated as if freshly seen in OUTSIDE. -/
def specScan (var : Line) : ScanState → List Line → List Line
  | _, [] => []
  | .OUTSIDE, line :: rest =>
    if var.isPrefixOf line then specScan var .INSIDE_BLOCK rest
    else line :: specScan var .OUTSIDE rest
  | .INSIDE_BLOCK, line :: rest =>
    if isIndented line then specScan var .INSIDE_BLOCK rest
    else specScan var .OUTSIDE (line :: rest)
termination_by s lines => (lines.length, stateRank s)
decreasing_by
  all_goals simp_wf
  all_goals first
    | exact Prod.Lex.left _ _ (Nat.lt_succ_self _)
    | exact Prod.Lex.right _ (by decide)

/-- The scan with flag `b` is the spec state machine in the corresponding
state. -/
theorem deleteVarGo_eq_specScan (var : Line) (lines : List Line) :
    ∀ b : Bool, deleteVarGo var b lines
      = specScan var (if b then .INSIDE_BLOCK else .OUTSIDE) lines := by
  induction lines with
  | nil => intro b; cases b <;> simp [deleteVarGo, specScan]
  | cons line rest ih =>
    intro b
    cases b with
    | false =>
      by_cases hp : var.isPrefixOf line = true <;>
        simp [deleteVarGo, specScan, hp, ih]
    | true =>
      by_cases hi : isIndented line = true
      · simp [deleteVarGo, specScan, hi, ih]
      · by_cases hp : var.isPrefixOf line = true <;>
          simp [deleteVarGo, specScan, hi, hp, ih]

/-- Every line the scan emits fails the `line.startswith(var)` test: no
line whose column-0 prefix is `var` survives, whatever the flag. -/
theorem deleteVarGo_all_not_isPrefixOf (var : Line) (lines : List Line) :
    ∀ b : Bool,
      (deleteVarGo var b lines).all (fun l => !(var.isPrefixOf l)) = true := by
  induction lines with
  | nil => intro b; simp [deleteVarGo]
  | cons line rest ih =>
    intro b
    simp only [deleteVarGo]
    cases hpl : var.isPrefixOf line with
    | true => simp [hpl, ih]
    | false =>
      cases hb : b && isIndented line with
      | true => simp [hpl, hb, ih]
      | false => simp [hpl, hb, ih]

/-- The emitted lines are a sublist of the lines read: kept lines are
unchanged and keep their relative order, whatever the flag. -/
theorem deleteVarGo_sublist (var : Line) (lines : List Line) :
    ∀ b : Bool, (deleteVarGo var b lines).Sublist lines := by
  induction lines with
  | nil => intro b; simp [deleteVarGo]
  | cons line rest ih =>
    intro b
    simp only [deleteVarGo]
    by_cases hc : (var.isPrefixOf line || (b && isIndented line)) = true
    · simp only [hc, if_true]
      exact List.Sublist.cons line (ih true)
    · simp only [hc, if_false]
      exact List.Sublist.cons₂ line (ih false)

/-- If no line of the file starts with `var`, the scan with flag false
emits every line unchanged. -/
theorem deleteVarGo_no_match (var : Line) (lines : List Line)
    (h : ∀ l ∈ lines, var.isPrefixOf l = false) :
    deleteVarGo var false lines = lines := by
  induction lines with
  | nil => simp [deleteVarGo]
  | cons line rest ih =>
    have hl : var.isPrefixOf line = false := h line (by simp)
    simp only [deleteVarGo, hl, Bool.false_and, Bool.or_false,
      Bool.false_eq_true, if_false]
    exact congrArg (line :: ·) (ih fun l hm => h l (by simp [hm]))

/-! ### The I/O behaviour of `delete_var`

`delete_var` wraps the scan in `try: open(r); readlines; open(w); write
line by line; except Exception: console.print_exception(...)`.  The
fallible steps are modelled explicitly: `readOk` is whether opening the
file for reading and reading its lines succeeds, `openOk` whether opening
it for writing succeeds (which truncates the file), and `writeBudget`
is `none` when every `fw.write` succeeds, or `some k` when the
(k+1)-th write raises.  `contents` is the file on disk after the call and
`raised` whether an exception escapes to the caller (the `except` clause
only prints, so nothing ever escapes). -/

/-- Result of one `delete_var` call: the file's lines on disk afterwards,
and whether an exception propagated to the caller. -/
structure RemovalOutcome where
  contents : List Line
  raised : Bool
deriving DecidableEq

/-- `VariablesCLI.delete_var` with its failure points explicit (see the
section comment above for the meaning of `readOk`, `openOk` and
`writeBudget`). -/
def delete_var (lines : List Line) (var : Line)
    (readOk openOk : Bool) (writeBudget : Option Nat) : RemovalOutcome :=
  if readOk = false then ⟨lines, false⟩
  else if openOk = false then ⟨lines, false⟩
  else
    match writeBudget with
    | none => ⟨deleteVarLines var lines, false⟩
    | some k => ⟨(deleteVarLines var lines).take k, false⟩

/-- C1 counterexample.  On a file holding two top-level `app_port:` blocks,
one `delete_var` pass removes BOTH blocks: the later block's key line
`app_port: 9090` is not left in the file, contrary to the claim that only
the first matching block is removed. -/
theorem c1_first_block_only_counterexample :
    deleteVarLines "app_port:".toList
      ["app_port: 8080\n".toList, "  a: 1\n".toList, "other: 2\n".toList,
       "app_port: 9090\n".toList, "  b: 2\n".toList, "tail: 3\n".toList]
    = ["other: 2\n".toList, "tail: 3\n".toList]
    ∧ "app_port: 9090\n".toList ∉
      deleteVarLines "app_port:".toList
        ["app_port: 8080\n".toList, "  a: 1\n".toList, "other: 2\n".toList,
         "app_port: 9090\n".toList, "  b: 2\n".toList, "tail: 3\n".toList] := by
  exact ⟨rfl, by decide⟩

/-- C1 (amended).  One invocation of `delete_var` removes EVERY top-level
block whose line has column-0 prefix `var` (with its indented continuation
lines), not just the first: no line whose column-0 prefix is `var` remains
among the rewritten lines. -/
theorem c1_removes_every_matching_block (var : Line) (lines : List Line) :
    (deleteVarLines var lines).all (fun l => !(var.isPrefixOf l)) = true :=
  deleteVarGo_all_not_isPrefixOf var lines false

/-- C2.  The lines `delete_var` emits are exactly those kept by the
two-state OUTSIDE / INSIDE_BLOCK scan of the spec, started in OUTSIDE;
and on the spec's example file (a key `app_port: 8080`, two more-indented
lines, then `next_key: 1` and further content), removing `app_port`
deletes exactly the three block lines and keeps `next_key: 1` and
everything after it. -/
theorem c2_scan_equivalence :
    (∀ (var : Line) (lines : List Line),
       deleteVarLines var lines = specScan var ScanState.OUTSIDE lines)
    ∧ deleteVarLines "app_port:".toList
        ["app_port: 8080\n".toList, "  host: 0.0.0.0\n".toList,
         "  debug: true\n".toList, "next_key: 1\n".toList, "rest: x\n".toList]
      = ["next_key: 1\n".toList, "rest: x\n".toList] :=
  ⟨fun var lines => deleteVarGo_eq_specScan var lines false, rfl⟩

/-- C3 counterexample.  With the file `a: 1 / b: 2 / c: 3` and a variable
`zzz` that the file does not define, a write failure after one successful
line write leaves `a: 1` alone on disk — neither the original contents nor
the full rewrite — and no exception reaches the caller: the failure is
swallowed (printed only), so the claim's per-file failure report and
no-partial-rewrite guarantee both fail. -/
theorem c3_failure_reporting_counterexample :
    (delete_var ["a: 1\n".toList, "b: 2\n".toList, "c: 3\n".toList]
        "zzz:".toList true true (some 1)).raised = false
    ∧ (delete_var ["a: 1\n".toList, "b: 2\n".toList, "c: 3\n".toList]
        "zzz:".toList true true (some 1)).contents
      = ["a: 1\n".toList]
    ∧ (delete_var ["a: 1\n".toList, "b: 2\n".toList, "c: 3\n".toList]
        "zzz:".toList true true (some 1)).contents
      ≠ ["a: 1\n".toList, "b: 2\n".toList, "c: 3\n".toList]
    ∧ (delete_var ["a: 1\n".toList, "b: 2\n".toList, "c: 3\n".toList]
        "zzz:".toList true true (some 1)).contents
      ≠ deleteVarLines "zzz:".toList
          ["a: 1\n".toList, "b: 2\n".toList, "c: 3\n".toList] := by
  exact ⟨rfl, rfl, by decide, by decide⟩

/-- C3 (amended).  `delete_var` never propagates a failure to the caller
(the exception is caught and printed); if reading the file or opening it
for writing fails the file is unchanged; but because opening for writing
truncates the file, a failure during writing leaves a partial rewrite on
disk: exactly the first `k` kept lines. -/
theorem c3_failure_behaviour (lines : List Line) (var : Line)
    (readOk openOk : Bool) (writeBudget : Option Nat) (k : Nat) :
    (delete_var lines var readOk openOk writeBudget).raised = false
    ∧ (delete_var lines var false openOk writeBudget).contents = lines
    ∧ (delete_var lines var true false writeBudget).contents = lines
    ∧ (delete_var lines var true true none).contents = deleteVarLines var lines
    ∧ (delete_var lines var true true (some k)).contents
      = (deleteVarLines var lines).take k := by
  refine ⟨?_, rfl, rfl, rfl, rfl⟩
  cases readOk <;> cases openOk <;> cases writeBudget <;> rfl

/-- C6.  If no line of the file has column-0 prefix `var`, `delete_var`
rewrites the file with exactly its original lines: the file is left
byte-identical. -/
theorem c6_no_match_identity (var : Line) (lines : List Line)
    (h : ∀ l ∈ lines, var.isPrefixOf l = false) :
    deleteVarLines var lines = lines :=
  deleteVarGo_no_match var lines h

/-- C6 witness: a concrete file with no `bar:` line is rewritten
unchanged. -/
theorem c6_no_match_identity_witness :
    (∀ l ∈ ["foo: 1\n".toList, "  x: 2\n".toList],
       ("bar:".toList).isPrefixOf l = false)
    ∧ deleteVarLines "bar:".toList ["foo: 1\n".toList, "  x: 2\n".toList]
      = ["foo: 1\n".toList, "  x: 2\n".toList] :=
  ⟨by decide,
   c6_no_match_identity "bar:".toList
     ["foo: 1\n".toList, "  x: 2\n".toList] (by decide)⟩

/-- C8.  The rewritten file is a sublist of the original lines: every
line that is not deleted is written back unchanged (its line ending
included, since a line carries its newline) and in its original relative
order. -/
theorem c8_kept_lines_sublist (var : Line) (lines : List Line) :
    (deleteVarLines var lines).Sublist lines :=
  deleteVarGo_sublist var lines false

/-! ### The body of `VariablesCLI.run`

`run` obtains `hosts` from the inventory, raises `AnsibleOptionsError`
when it is empty, and then loops: hosts whose last group was already seen
are skipped; for each processed host a header is printed and each variable
returned by `variable_sources` is handled.  Everything the loop prints or
does to the file system is recorded as an `Event`; the results of the
external `variable_sources` and `Variable.file_occurrences` calls are
carried as data on `Variable` (`files` and `dups` are the two components
`file_occurrences` returns). -/

/-- The fixed deny-list `INTERNAL_VARS` of `variables.py` (same names as
for ansible-inventory). -/
def INTERNAL_VARS : List String :=
  ["ansible_diff_mode",
   "ansible_config_file",
   "ansible_facts",
   "ansible_forks",
   "ansible_inventory_sources",
   "ansible_limit",
   "ansible_playbook_python",
   "ansible_run_tags",
   "ansible_skip_tags",
   "ansible_verbosity",
   "ansible_version",
   "inventory_dir",
   "inventory_file",
   "inventory_hostname",
   "inventory_hostname_short",
   "groups",
   "group_names",
   "omit",
   "playbook_dir"]

/-- A variable as `run` sees it: the fields read off the objects yielded
by `variable_sources`, plus the two lists `file_occurrences` returns for
it (`files`, and the duplicate occurrence list `dups`, highest precedence
first). -/
structure Variable where
  name : String
  value : String
  source_mapped : String
  files : List String
  dups : List String
deriving DecidableEq

/-- A host as `run` sees it: its display name, the result of
`host.get_groups()`, and the variables `variable_sources` yields for it
(field `vars`, since `variables` is a reserved word here). -/
structure Host where
  name : String
  get_groups : List String
  vars : List Variable
deriving DecidableEq

/-- `host.get_groups()[-1]` (every Ansible host belongs to at least one
group, so the default is never reached in the modelled runs). -/
def lastGroup (h : Host) : String :=
  h.get_groups.getLastD ""

/-- One observable step of `run`: a console line or a `delete_var`
invocation. -/
inductive Event
  | header (host : String) (group : String)
  | varLine (name : String) (value : String) (source : String)
  | fileLine (file : String)
  | dupHeader (name : String) (orig : String)
  | dupItem (file : String) (deleted : Bool)
  | delete (path : String) (var : String)
deriving DecidableEq

/-- The duplicate branch of `run` for one variable:

  if len(dups) > 1:
      rich.print(f"... Originally in: dups[0] duplicated in:")
      for dup in dups[1:]:
          if remove_duplicates:
              VariablesCLI.delete_var(dup, variable.name + ":")
          rich.print(f"  * dup", "DELETED" if remove_duplicates else "")
-/
def dupHandling (remove_duplicates : Bool) (name : String)
    (dups : List String) : List Event :=
  match dups with
  | d0 :: d1 :: rest =>
    Event.dupHeader name d0 ::
      (d1 :: rest).flatMap (fun dup =>
        (if remove_duplicates then [Event.delete dup (name ++ ":")] else [])
        ++ [Event.dupItem dup remove_duplicates])
  | _ => []

/-- The per-variable body of `run`'s inner loop (the
`if variable.name not in INTERNAL_VARS:` block). -/
def varEvents (verbosity : Nat) (check_duplicates remove_duplicates : Bool)
    (v : Variable) : List Event :=
  if v.name ∈ INTERNAL_VARS then []
  else
    (if check_duplicates = false then
       [Event.varLine v.name v.value v.source_mapped]
     else [])
    ++ (if 1 ≤ verbosity ∨ check_duplicates = true then
          (if 1 ≤ verbosity then v.files.map Event.fileLine else [])
          ++ (if check_duplicates = true then
                dupHandling remove_duplicates v.name v.dups
              else [])
        else [])

/-- The per-host body of `run`'s outer loop: print the header, then
handle each variable of the host. -/
def hostEvents (verbosity : Nat) (check_duplicates remove_duplicates : Bool)
    (h : Host) : List Event :=
  Event.header h.name (lastGroup h) ::
    h.vars.flatMap (varEvents verbosity check_duplicates remove_duplicates)

/-- `run`'s outer loop over `hosts`, with the `groups` accumulator of
already-seen last groups explicit:

  for host in hosts:
      host_external_group = host.get_groups()[-1]
      if host_external_group in groups:
          continue
      groups.append(host_external_group)
      ...
-/
def runHosts (verbosity : Nat) (check_duplicates remove_duplicates : Bool) :
    List Host → List String → List Event
  | [], _ => []
  | h :: rest, groups =>
    if lastGroup h ∈ groups then
      runHosts verbosity check_duplicates remove_duplicates rest groups
    else
      hostEvents verbosity check_duplicates remove_duplicates h
      ++ runHosts verbosity check_duplicates remove_duplicates rest
           (groups ++ [lastGroup h])

/-- The hosts that are actually processed (not skipped) by the loop. -/
def processedHosts : List Host → List String → List Host
  | [], _ => []
  | h :: rest, groups =>
    if lastGroup h ∈ groups then processedHosts rest groups
    else h :: processedHosts rest (groups ++ [lastGroup h])

/-- The `groups` accumulator after the loop has walked the given hosts. -/
def seenAfter : List Host → List String → List String
  | [], groups => groups
  | h :: rest, groups =>
    if lastGroup h ∈ groups then seenAfter rest groups
    else seenAfter rest (groups ++ [lastGroup h])

/-- `VariablesCLI.run` after `get_hosts`: an empty host list raises
`AnsibleOptionsError` (modelled as the error message) before any output;
otherwise the loop produces the run's events. -/
def runCLI (verbosity : Nat) (check_duplicates remove_duplicates : Bool)
    (hosts : List Host) : Except String (List Event) :=
  if hosts = [] then
    .error "You must pass a single valid host to ansible-variables"
  else
    .ok (runHosts verbosity check_duplicates remove_duplicates hosts [])

/-- The file path an event passes to `delete_var`, when it is a
`delete_var` invocation. -/
def deleteTarget? : Event → Option String
  | .delete p _ => some p
  | _ => none

/-- The occurrence an event prints as a duplicated-in item, when it is
one. -/
def dupItemFile? : Event → Option String
  | .dupItem p _ => some p
  | _ => none

/-- The file paths passed to `delete_var` among a list of events. -/
def deleteTargets (events : List Event) : List String :=
  events.filterMap deleteTarget?

/-- The occurrences printed as duplicated-in items among a list of
events. -/
def dupItems (events : List Event) : List String :=
  events.filterMap dupItemFile?

/-- The variable name an event displays, when it displays one. -/
def eventVarName : Event → Option String
  | .varLine n _ _ => some n
  | .dupHeader n _ => some n
  | _ => none

/-- Delete targets contributed by the `for dup in dups[1:]` loop body:
the whole sublist when removal is on, nothing otherwise. -/
theorem dupLoop_deleteTargets (remove_duplicates : Bool) (name : String)
    (l : List String) :
    deleteTargets (l.flatMap (fun dup =>
      (if remove_duplicates then [Event.delete dup (name ++ ":")] else [])
      ++ [Event.dupItem dup remove_duplicates]))
    = if remove_duplicates then l else [] := by
  induction l with
  | nil => cases remove_duplicates <;> simp [deleteTargets]
  | cons d tl ih =>
    cases remove_duplicates <;>
      simp_all [deleteTargets, List.flatMap_cons, deleteTarget?]

/-- Duplicated-in items contributed by the `for dup in dups[1:]` loop
body: the whole sublist, with or without removal. -/
theorem dupLoop_dupItems (remove_duplicates : Bool) (name : String)
    (l : List String) :
    dupItems (l.flatMap (fun dup =>
      (if remove_duplicates then [Event.delete dup (name ++ ":")] else [])
      ++ [Event.dupItem dup remove_duplicates]))
    = l := by
  induction l with
  | nil => simp [dupItems]
  | cons d tl ih =>
    cases remove_duplicates <;>
      simp_all [dupItems, List.flatMap_cons, dupItemFile?, deleteTarget?]

/-- C4.  Duplicate policy of `run`: an occurrence list with exactly one
element produces no duplicate report; with two or more elements the first
occurrence is labeled originally-in, every subsequent occurrence is
reported as duplicated-in, and the files passed to `delete_var` are
exactly the occurrences after the first (when removal is enabled) — the
first, authoritative occurrence is never passed to `delete_var`. -/
theorem c4_duplicate_report_policy (remove_duplicates : Bool)
    (name d0 d1 : String) (rest dups : List String) :
    dupHandling remove_duplicates name [d0] = []
    ∧ (dupHandling remove_duplicates name (d0 :: d1 :: rest)).head?
      = some (Event.dupHeader name d0)
    ∧ dupItems (dupHandling remove_duplicates name dups)
      = (if 2 ≤ dups.length then dups.tail else [])
    ∧ deleteTargets (dupHandling remove_duplicates name dups)
      = (if remove_duplicates = true ∧ 2 ≤ dups.length then dups.tail
         else []) := by
  refine ⟨rfl, rfl, ?_, ?_⟩
  · match dups with
    | [] => simp [dupHandling, dupItems]
    | [d] => simp [dupHandling, dupItems]
    | a :: b :: tl =>
      have h2 : 2 ≤ (a :: b :: tl).length := by
        simp [List.length_cons]
      rw [if_pos h2]
      show dupItems ((b :: tl).flatMap _) = b :: tl
      exact dupLoop_dupItems remove_duplicates name (b :: tl)
  · match dups with
    | [] => cases remove_duplicates <;> simp [dupHandling, deleteTargets]
    | [d] => cases remove_duplicates <;> simp [dupHandling, deleteTargets]
    | a :: b :: tl =>
      have h2 : 2 ≤ (a :: b :: tl).length := by
        simp [List.length_cons]
      cases remove_duplicates with
      | true =>
        rw [if_pos ⟨rfl, h2⟩]
        show deleteTargets ((b :: tl).flatMap _) = b :: tl
        simpa using dupLoop_deleteTargets true name (b :: tl)
      | false =>
        rw [if_neg (by simp)]
        show deleteTargets ((b :: tl).flatMap _) = []
        simpa using dupLoop_deleteTargets false name (b :: tl)

/-- Every event of the duplicate branch that displays a variable name
displays the branch's own variable name. -/
theorem dupHandling_varName (remove_duplicates : Bool) (name : String)
    (dups : List String) (e : Event) (n : String)
    (he : e ∈ dupHandling remove_duplicates name dups)
    (hn : eventVarName e = some n) : n = name := by
  match dups with
  | [] => simp [dupHandling] at he
  | [d] => simp [dupHandling] at he
  | a :: b :: tl =>
    simp only [dupHandling, List.mem_cons] at he
    rcases he with he | he
    · subst he
      simp [eventVarName] at hn
      exact hn.symm
    · rcases List.mem_flatMap.mp he with ⟨dup, _, hmem⟩
      rcases List.mem_append.mp hmem with hmem | hmem
      · cases remove_duplicates <;> simp at hmem
        · subst hmem; simp [eventVarName] at hn
      · simp at hmem
        subst hmem; simp [eventVarName] at hn

/-- Every event the per-variable body emits that displays a variable name
displays a name outside the deny-list. -/
theorem varEvents_varName (verbosity : Nat)
    (check_duplicates remove_duplicates : Bool) (v : Variable) (e : Event)
    (n : String)
    (he : e ∈ varEvents verbosity check_duplicates remove_duplicates v)
    (hn : eventVarName e = some n) : n ∉ INTERNAL_VARS := by
  by_cases hv : v.name ∈ INTERNAL_VARS
  · simp [varEvents, hv] at he
  · simp only [varEvents, hv, if_neg, if_false] at he
    rcases List.mem_append.mp he with he | he
    · by_cases hcd : check_duplicates = false
      · simp [hcd] at he
        subst he
        simp [eventVarName] at hn
        exact hn ▸ hv
      · simp [hcd] at he
    · by_cases hout : 1 ≤ verbosity ∨ check_duplicates = true
      · rw [if_pos hout] at he
        rcases List.mem_append.mp he with he | he
        · by_cases hverb : 1 ≤ verbosity
          · rw [if_pos hverb] at he
            rcases List.mem_map.mp he with ⟨f, _, hf⟩
            subst hf
            simp [eventVarName] at hn
          · rw [if_neg hverb] at he
            simp at he
        · by_cases hcd : check_duplicates = true
          · rw [if_pos hcd] at he
            have := dupHandling_varName remove_duplicates v.name v.dups e n
              he hn
            exact this ▸ hv
          · rw [if_neg hcd] at he
            simp at he
      · rw [if_neg hout] at he
        simp at he

/-- Every event the per-host body emits that displays a variable name
displays a name outside the deny-list. -/
theorem hostEvents_varName (verbosity : Nat)
    (check_duplicates remove_duplicates : Bool) (h : Host) (e : Event)
    (n : String)
    (he : e ∈ hostEvents verbosity check_duplicates remove_duplicates h)
    (hn : eventVarName e = some n) : n ∉ INTERNAL_VARS := by
  simp only [hostEvents, List.mem_cons] at he
  rcases he with he | he
  · subst he; simp [eventVarName] at hn
  · rcases List.mem_flatMap.mp he with ⟨v, _, hv⟩
    exact varEvents_varName verbosity check_duplicates remove_duplicates v
      e n hv hn

/-- C5.  No variable whose name is in the fixed deny-list
`INTERNAL_VARS` ever appears in the run's output, whatever the hosts and
flags; and the claim's example names are indeed in the deny-list. -/
theorem c5_internal_vars_never_output (verbosity : Nat)
    (check_duplicates remove_duplicates : Bool) (hosts : List Host)
    (seen : List String) (e : Event) (n : String)
    (he : e ∈ runHosts verbosity check_duplicates remove_duplicates hosts
      seen)
    (hn : eventVarName e = some n) :
    n ∉ INTERNAL_VARS
    ∧ "ansible_facts" ∈ INTERNAL_VARS
    ∧ "inventory_hostname" ∈ INTERNAL_VARS
    ∧ "groups" ∈ INTERNAL_VARS
    ∧ "group_names" ∈ INTERNAL_VARS
    ∧ "omit" ∈ INTERNAL_VARS := by
  refine ⟨?_, by decide, by decide, by decide, by decide, by decide⟩
  induction hosts generalizing seen with
  | nil => simp [runHosts] at he
  | cons h rest ih =>
    simp only [runHosts] at he
    by_cases hg : lastGroup h ∈ seen
    · rw [if_pos hg] at he
      exact ih _ he
    · rw [if_neg hg] at he
      rcases List.mem_append.mp he with he | he
      · exact hostEvents_varName verbosity check_duplicates
          remove_duplicates h e n he hn
      · exact ih _ he

/-- C5 witness: in a concrete run, the event displaying the variable
`timeout` is in the output, and its name is not internal. -/
theorem c5_internal_vars_never_output_witness :
    Event.varLine "timeout" "30" "group_vars/all"
      ∈ runHosts 0 false false
          [⟨"web1", ["all"],
            [⟨"timeout", "30", "group_vars/all", [], []⟩]⟩] []
    ∧ eventVarName (Event.varLine "timeout" "30" "group_vars/all")
      = some "timeout"
    ∧ "timeout" ∉ INTERNAL_VARS :=
  ⟨by decide, rfl,
   (c5_internal_vars_never_output 0 false false
     [⟨"web1", ["all"], [⟨"timeout", "30", "group_vars/all", [], []⟩]⟩]
     [] (Event.varLine "timeout" "30" "group_vars/all") "timeout"
     (by decide) rfl).1⟩

/-- C7.  When `get_hosts` returns no host, `run` raises
`AnsibleOptionsError` (modelled as the error message of the `raise`)
before any output is produced: the result is the error, not an `ok` list
of events. -/
theorem c7_empty_hosts_error (verbosity : Nat)
    (check_duplicates remove_duplicates : Bool) :
    runCLI verbosity check_duplicates remove_duplicates []
      = Except.error "You must pass a single valid host to ansible-variables" := by
  simp [runCLI]

/-- Splitting the host loop: walking `a ++ b` is walking `a`, then
walking `b` with the groups accumulated over `a`. -/
theorem runHosts_append (verbosity : Nat)
    (check_duplicates remove_duplicates : Bool) (a b : List Host)
    (seen : List String) :
    runHosts verbosity check_duplicates remove_duplicates (a ++ b) seen
    = runHosts verbosity check_duplicates remove_duplicates a seen
      ++ runHosts verbosity check_duplicates remove_duplicates b
           (seenAfter a seen) := by
  induction a generalizing seen with
  | nil => simp [runHosts, seenAfter]
  | cons h rest ih =>
    by_cases hg : lastGroup h ∈ seen
    · simp [runHosts, seenAfter, hg, ih]
    · simp [runHosts, seenAfter, hg, ih]

/-- The groups accumulator only grows along the loop. -/
theorem mem_seenAfter (a : List Host) (seen : List String) (g : String)
    (hg : g ∈ seen) : g ∈ seenAfter a seen := by
  induction a generalizing seen with
  | nil => simpa [seenAfter] using hg
  | cons h rest ih =>
    by_cases hm : lastGroup h ∈ seen
    · simp only [seenAfter, hm, if_pos]
      exact ih seen hg
    · simp only [seenAfter, hm, if_neg, if_false]
      exact ih _ (List.mem_append.mpr (Or.inl hg))

/-- The last group of every processed host is in the accumulator once the
loop has walked past it. -/
theorem processed_lastGroup_mem_seenAfter (a : List Host)
    (seen : List String) (h' : Host)
    (hmem : h' ∈ processedHosts a seen) :
    lastGroup h' ∈ seenAfter a seen := by
  induction a generalizing seen with
  | nil => simp [processedHosts] at hmem
  | cons h rest ih =>
    by_cases hm : lastGroup h ∈ seen
    · rw [processedHosts, if_pos hm] at hmem
      rw [seenAfter, if_pos hm]
      exact ih seen hmem
    · rw [processedHosts, if_neg hm] at hmem
      rw [seenAfter, if_neg hm]
      rcases List.mem_cons.mp hmem with hmem | hmem
      · subst hmem
        exact mem_seenAfter rest _ _
          (List.mem_append.mpr (Or.inr (List.mem_singleton.mpr rfl)))
      · exact ih _ hmem

/-- C9.  A host whose last group equals the last group of an
earlier-processed host of the same run is skipped entirely: the run's
events are exactly those of the run without that host, so no header is
printed for it and none of its variables are displayed, checked or
removed. -/
theorem c9_duplicate_group_skipped (verbosity : Nat)
    (check_duplicates remove_duplicates : Bool) (l1 l2 : List Host)
    (h h' : Host) (seen : List String)
    (h1 : h' ∈ processedHosts l1 seen) (h2 : lastGroup h' = lastGroup h) :
    runHosts verbosity check_duplicates remove_duplicates (l1 ++ h :: l2)
      seen
    = runHosts verbosity check_duplicates remove_duplicates (l1 ++ l2)
        seen := by
  have hmem : lastGroup h ∈ seenAfter l1 seen :=
    h2 ▸ processed_lastGroup_mem_seenAfter l1 seen h' h1
  rw [runHosts_append, runHosts_append]
  have : runHosts verbosity check_duplicates remove_duplicates (h :: l2)
      (seenAfter l1 seen)
      = runHosts verbosity check_duplicates remove_duplicates l2
          (seenAfter l1 seen) := by
    rw [runHosts, if_pos hmem]
  rw [this]

/-- C9 witness: with two hosts whose group memberships both end in
`all`, the second host is skipped — the run equals the run on the first
host alone. -/
theorem c9_duplicate_group_skipped_witness :
    (⟨"web1", ["all"], []⟩ : Host)
      ∈ processedHosts [⟨"web1", ["all"], []⟩] []
    ∧ lastGroup (⟨"web1", ["all"], []⟩ : Host)
      = lastGroup (⟨"web2", ["x", "all"], []⟩ : Host)
    ∧ runHosts 0 false false
        ([(⟨"web1", ["all"], []⟩ : Host)] ++ (⟨"web2", ["x", "all"], []⟩ : Host) :: [])
        []
      = runHosts 0 false false [(⟨"web1", ["all"], []⟩ : Host)] [] := by
  refine ⟨by decide, by decide, ?_⟩
  have := c9_duplicate_group_skipped 0 false false
    [(⟨"web1", ["all"], []⟩ : Host)] [] (⟨"web2", ["x", "all"], []⟩ : Host)
    (⟨"web1", ["all"], []⟩ : Host) [] (by decide) (by decide)
  simpa using this

/-- The duplicate branch performs no deletion when removal is off. -/
theorem dupHandling_no_delete (name : String) (dups : List String)
    (e : Event) (he : e ∈ dupHandling false name dups) :
    deleteTarget? e = none := by
  match dups with
  | [] => simp [dupHandling] at he
  | [d] => simp [dupHandling] at he
  | a :: b :: tl =>
    simp only [dupHandling, List.mem_cons] at he
    rcases he with he | he
    · subst he; rfl
    · rcases List.mem_flatMap.mp he with ⟨dup, _, hmem⟩
      simp at hmem
      subst hmem; rfl

/-- The per-variable body performs no deletion unless both the
duplicate-check flag and the duplicate-removal flag are on. -/
theorem varEvents_no_delete (verbosity : Nat)
    (check_duplicates remove_duplicates : Bool) (v : Variable) (e : Event)
    (hflags : check_duplicates = false ∨ remove_duplicates = false)
    (he : e ∈ varEvents verbosity check_duplicates remove_duplicates v) :
    deleteTarget? e = none := by
  by_cases hv : v.name ∈ INTERNAL_VARS
  · simp [varEvents, hv] at he
  · simp only [varEvents, hv, if_neg, if_false] at he
    rcases List.mem_append.mp he with he | he
    · by_cases hcd : check_duplicates = false
      · simp [hcd] at he; subst he; rfl
      · simp [hcd] at he
    · by_cases hout : 1 ≤ verbosity ∨ check_duplicates = true
      · rw [if_pos hout] at he
        rcases List.mem_append.mp he with he | he
        · by_cases hverb : 1 ≤ verbosity
          · rw [if_pos hverb] at he
            rcases List.mem_map.mp he with ⟨f, _, hf⟩
            subst hf; rfl
          · rw [if_neg hverb] at he; simp at he
        · by_cases hcd : check_duplicates = true
          · rw [if_pos hcd] at he
            rcases hflags with hflags | hflags
            · rw [hflags] at hcd; cases hcd
            · rw [hflags] at he
              exact dupHandling_no_delete v.name v.dups e he
          · rw [if_neg hcd] at he; simp at he
      · rw [if_neg hout] at he; simp at he

/-- The whole loop performs no deletion unless both flags are on. -/
theorem runHosts_no_delete (verbosity : Nat)
    (check_duplicates remove_duplicates : Bool) (hosts : List Host)
    (seen : List String) (e : Event)
    (hflags : check_duplicates = false ∨ remove_duplicates = false)
    (he : e ∈ runHosts verbosity check_duplicates remove_duplicates hosts
      seen) :
    deleteTarget? e = none := by
  induction hosts generalizing seen with
  | nil => simp [runHosts] at he
  | cons h rest ih =>
    simp only [runHosts] at he
    by_cases hg : lastGroup h ∈ seen
    · rw [if_pos hg] at he
      exact ih _ he
    · rw [if_neg hg] at he
      rcases List.mem_append.mp he with he | he
      · simp only [hostEvents, List.mem_cons] at he
        rcases he with he | he
        · subst he; rfl
        · rcases List.mem_flatMap.mp he with ⟨v, _, hv⟩
          exact varEvents_no_delete verbosity check_duplicates
            remove_duplicates v e hflags hv
      · exact ih _ he

/-- C10.  `delete_var` is reached — and hence a file modified — only when
both the duplicate-check flag and the duplicate-removal flag are on: with
the check flag off (removal alone enabled, say), or with removal off, the
run passes no file to `delete_var`. -/
theorem c10_delete_requires_both_flags (verbosity : Nat)
    (check_duplicates remove_duplicates : Bool) (hosts : List Host)
    (seen : List String) :
    deleteTargets (runHosts verbosity false remove_duplicates hosts seen)
      = []
    ∧ deleteTargets (runHosts verbosity check_duplicates false hosts seen)
      = [] := by
  constructor
  · exact List.filterMap_eq_nil_iff.mpr fun e he =>
      runHosts_no_delete verbosity false remove_duplicates hosts seen e
        (Or.inl rfl) he
  · exact List.filterMap_eq_nil_iff.mpr fun e he =>
      runHosts_no_delete verbosity check_duplicates false hosts seen e
        (Or.inr rfl) he

end AnsibleVariables
